import Mathlib

/-
  Verification development for the EMAIL-Consumption-Values repository.

  The Python modules `src/parser.py` (message parsing) and `src/scraper.py`
  (text extraction, candidate ranking and deduplication) are shallowly
  embedded below.  Text is modelled as `List Char` (Python `str` is a
  sequence of code points), Python `float` values arising from parsing
  non-negative decimal literals are modelled as `ℚ`, Python `int` as
  `Nat`/`Int`, and raising exceptions as `Except String`.
-/

set_option maxRecDepth 20000

/-! ### Basic Python-style character and string helpers -/

/-- The whitespace characters matched by Python's `\s` / `str.strip()` /
`str.split()` for the ASCII range (the repository's messages are German
text; non-ASCII Unicode whitespace does not occur in its fixed markers). -/
def isPyWS (c : Char) : Bool :=
  c == ' ' || c == '\t' || c == '\n' || c == '\r' || c == '\x0B' || c == '\x0C'

/-- Python `str.lower()` on a single character, covering ASCII plus the
German capital umlauts that can occur in the fixed vocabulary
(`März`, `Grüße`). -/
def pyLowerChar (c : Char) : Char :=
  if c = 'Ä' then 'ä' else if c = 'Ö' then 'ö' else if c = 'Ü' then 'ü'
  else c.toLower

/-- Python `str.lower()` character-wise on a list of characters. -/
def lowerL (l : List Char) : List Char := l.map pyLowerChar

/-- Python `str.strip()`: remove leading and trailing whitespace. -/
def pyStrip (l : List Char) : List Char :=
  ((l.dropWhile isPyWS).reverse.dropWhile isPyWS).reverse

/-- Case-insensitive "the pattern `p` matches at the start of `l`", the
building block used to model `re.IGNORECASE` matching of fixed literals. -/
def ciStarts (p l : List Char) : Bool :=
  decide (lowerL (l.take p.length) = lowerL p)

/-- Python `str.lower()` on a `String`. -/
def pyLowerStr (s : String) : String := String.mk (lowerL s.data)

/-! ### SHA-256 (model of `hashlib.sha256(...).hexdigest()`)

`generate_content_hash` in `src/parser.py` calls `hashlib.sha256` on the
UTF-8 encoding of the message and returns the lowercase hex digest.  The
standard SHA-256 algorithm is modelled below over `List Nat` bytes with
arithmetic mod 2^32. -/

/-- UTF-8 encoding of one code point (model of `str.encode("utf-8")`). -/
def utf8Char (c : Char) : List Nat :=
  let n := c.toNat
  if n < 128 then [n]
  else if n < 2048 then [192 + n / 64, 128 + n % 64]
  else if n < 65536 then [224 + n / 4096, 128 + n / 64 % 64, 128 + n % 64]
  else [240 + n / 262144, 128 + n / 4096 % 64, 128 + n / 64 % 64, 128 + n % 64]

/-- UTF-8 encoding of a string as a byte list. -/
def utf8Encode (s : String) : List Nat :=
  s.data.foldr (fun c acc => utf8Char c ++ acc) []

/-- Truncation to a 32-bit word. -/
def w32 (x : Nat) : Nat := x % 4294967296

/-- 32-bit right rotation. -/
def rotr (n x : Nat) : Nat := w32 (x / 2 ^ n + x % 2 ^ n * 2 ^ (32 - n))

/-- 32-bit logical right shift. -/
def shr (n x : Nat) : Nat := x / 2 ^ n

/-- 32-bit bitwise complement (inputs are kept below 2^32). -/
def not32 (x : Nat) : Nat := 4294967295 - w32 x

/-- SHA-256 `Ch` function. -/
def shaCh (x y z : Nat) : Nat := w32 (Nat.xor (Nat.land x y) (Nat.land (not32 x) z))

/-- SHA-256 `Maj` function. -/
def shaMaj (x y z : Nat) : Nat :=
  w32 (Nat.xor (Nat.xor (Nat.land x y) (Nat.land x z)) (Nat.land y z))

/-- SHA-256 Σ₀. -/
def bigS0 (x : Nat) : Nat := Nat.xor (Nat.xor (rotr 2 x) (rotr 13 x)) (rotr 22 x)

/-- SHA-256 Σ₁. -/
def bigS1 (x : Nat) : Nat := Nat.xor (Nat.xor (rotr 6 x) (rotr 11 x)) (rotr 25 x)

/-- SHA-256 σ₀. -/
def smallS0 (x : Nat) : Nat := Nat.xor (Nat.xor (rotr 7 x) (rotr 18 x)) (shr 3 x)

/-- SHA-256 σ₁. -/
def smallS1 (x : Nat) : Nat := Nat.xor (Nat.xor (rotr 17 x) (rotr 19 x)) (shr 10 x)

/-- The eight 32-bit working variables of SHA-256. -/
structure Sha256State where
  a : Nat
  b : Nat
  c : Nat
  d : Nat
  e : Nat
  f : Nat
  g : Nat
  h : Nat
deriving DecidableEq

/-- SHA-256 initial hash value (FIPS 180-4, written in decimal). -/
def sha256H0 : Sha256State :=
  ⟨1779033703, 3144134277, 1013904242, 2773480762,
   1359893119, 2600822924, 528734635, 1541459225⟩

/-- SHA-256 round constants (FIPS 180-4, written in decimal). -/
def sha256K : List Nat :=
  [1116352408, 1899447441, 3049323471, 3921009573,
   961987163, 1508970993, 2453635748, 2870763221,
   3624381080, 310598401, 607225278, 1426881987,
   1925078388, 2162078206, 2614888103, 3248222580,
   3835390401, 4022224774, 264347078, 604807628,
   770255983, 1249150122, 1555081692, 1996064986,
   2554220882, 2821834349, 2952996808, 3210313671,
   3336571891, 3584528711, 113926993, 338241895,
   666307205, 773529912, 1294757372, 1396182291,
   1695183700, 1986661051, 2177026350, 2456956037,
   2730485921, 2820302411, 3259730800, 3345764771,
   3516065817, 3600352804, 4094571909, 275423344,
   430227734, 506948616, 659060556, 883997877,
   958139571, 1322822218, 1537002063, 1747873779,
   1955562222, 2024104815, 2227730452, 2361852424,
   2428436474, 2756734187, 3204031479, 3329325298]

/-- Big-endian packing of bytes into 32-bit words. -/
def toWordsBE : List Nat → List Nat
  | b0 :: b1 :: b2 :: b3 :: rest =>
      (b0 * 16777216 + b1 * 65536 + b2 * 256 + b3) :: toWordsBE rest
  | _ => []

/-- Message-schedule extension (the working list is kept reversed:
most recent word first). -/
def extendSchedule : Nat → List Nat → List Nat
  | 0, wrev => wrev
  | n + 1, wrev =>
      extendSchedule n
        (w32 (smallS1 (wrev.getD 1 0) + wrev.getD 6 0 +
              smallS0 (wrev.getD 14 0) + wrev.getD 15 0) :: wrev)

/-- The 64-word message schedule of one 64-byte chunk. -/
def scheduleOf (chunk : List Nat) : List Nat :=
  (extendSchedule 48 (toWordsBE chunk).reverse).reverse

/-- One SHA-256 round. -/
def compressStep (st : Sha256State) (kw : Nat × Nat) : Sha256State :=
  let t1 := w32 (st.h + bigS1 st.e + shaCh st.e st.f st.g + kw.2 + kw.1)
  let t2 := w32 (bigS0 st.a + shaMaj st.a st.b st.c)
  ⟨w32 (t1 + t2), st.a, st.b, st.c, w32 (st.d + t1), st.e, st.f, st.g⟩

/-- Compression of one 64-byte chunk. -/
def compressChunk (st : Sha256State) (chunk : List Nat) : Sha256State :=
  let r := ((scheduleOf chunk).zip sha256K).foldl compressStep st
  ⟨w32 (st.a + r.a), w32 (st.b + r.b), w32 (st.c + r.c), w32 (st.d + r.d),
   w32 (st.e + r.e), w32 (st.f + r.f), w32 (st.g + r.g), w32 (st.h + r.h)⟩

/-- SHA-256 padding: a `0x80` byte, zero bytes, then the 64-bit big-endian
bit length, to a multiple of 64 bytes. -/
def sha256Pad (msg : List Nat) : List Nat :=
  let L := msg.length
  msg ++ [128] ++ List.replicate ((64 - (L + 9) % 64) % 64) 0 ++
    (List.range 8).map (fun i => 8 * L / 2 ^ (56 - 8 * i) % 256)

/-- Split into 64-byte chunks (fuel-driven; the fuel is an upper bound on
the number of remaining bytes, so it never runs out). -/
def chunks64 : Nat → List Nat → List (List Nat)
  | 0, _ => []
  | _, [] => []
  | fuel + 1, l => l.take 64 :: chunks64 fuel (l.drop 64)

/-- The final SHA-256 state of a byte message. -/
def sha256Words (msg : List Nat) : Sha256State :=
  (chunks64 (sha256Pad msg).length (sha256Pad msg)).foldl compressChunk sha256H0

/-- One lowercase hexadecimal digit. -/
def hexChar (n : Nat) : Char := "0123456789abcdef".data.getD n 'x'

/-- Eight lowercase hex digits of one 32-bit word, most significant first. -/
def wordHex (w : Nat) : List Char :=
  (List.range 8).map (fun i => hexChar (w / 2 ^ (28 - 4 * i) % 16))

/-- `hashlib.sha256(bytes).hexdigest()` as a character list. -/
def sha256HexList (msg : List Nat) : List Char :=
  let st := sha256Words msg
  wordHex st.a ++ wordHex st.b ++ wordHex st.c ++ wordHex st.d ++
  wordHex st.e ++ wordHex st.f ++ wordHex st.g ++ wordHex st.h

/-- `generate_content_hash` from `src/parser.py`:
`hashlib.sha256(text.encode("utf-8")).hexdigest()`. -/
def generate_content_hash (text : String) : String :=
  String.mk (sha256HexList (utf8Encode text))

/-! ### Data models (`src/models.py`)

Pydantic models are embedded as structures together with validating
constructor functions that model the `field_validator`s run at
construction time. -/

/-- `ConsumptionData`: structured consumption values for one utility type.
Python `float` values are modelled as `ℚ`. -/
structure ConsumptionData where
  current_month : ℚ
  previous_year : ℚ
  property_average : ℚ
  unit : String
deriving DecidableEq

/-- Construction of `ConsumptionData`, running the `validate_positive`
validator on the three numeric fields. -/
def mkConsumptionData (cm py pa : ℚ) (unit : String) :
    Except String ConsumptionData :=
  if cm < 0 ∨ py < 0 ∨ pa < 0 then
    .error "Consumption values must be non-negative"
  else
    .ok ⟨cm, py, pa, unit⟩

/-- A calendar date as constructed by Python's `datetime.date`. -/
structure PyDate where
  year : Nat
  month : Nat
  day : Nat
deriving DecidableEq

/-- `datetime.date(year, month, day)`: Python raises `ValueError` for a
year outside `[1, 9999]` or a month outside `[1, 12]` (the parser always
passes `day = 1`, which is valid for every month). -/
def mkPyDate (y m d : Nat) : Except String PyDate :=
  if y < 1 ∨ 9999 < y then .error ("year " ++ toString y ++ " is out of range")
  else if m < 1 ∨ 12 < m then .error ("month " ++ toString m ++ " is out of range")
  else .ok ⟨y, m, d⟩

/-- `ParsedMessage`: a complete parsed message with metadata. -/
structure ParsedMessage where
  month : String
  year : Nat
  message_date : PyDate
  kaltwasser : ConsumptionData
  warmwasser : ConsumptionData
  heizung : ConsumptionData
  raw_message : String
  content_hash : String
deriving DecidableEq

/-- Construction of `ParsedMessage`, running the `validate_year`
validator (`2000 ≤ year ≤ 2100`). -/
def mkParsedMessage (month : String) (year : Nat) (message_date : PyDate)
    (kaltwasser warmwasser heizung : ConsumptionData)
    (raw_message content_hash : String) : Except String ParsedMessage :=
  if year < 2000 ∨ 2100 < year then
    .error "Year must be between 2000 and 2100"
  else
    .ok ⟨month, year, message_date, kaltwasser, warmwasser, heizung,
         raw_message, content_hash⟩

/-! ### Message parsing (`src/parser.py`)

The regular expressions of `parser.py` are fixed patterns over fixed
literals; each is embedded as a hand-written scanner with the same
leftmost-match semantics. -/

/-- The month-name vocabulary of `MONTH_YEAR_PATTERN`, in alternation
order. -/
def MONTH_NAMES : List String :=
  ["Januar", "Februar", "März", "April", "Mai", "Juni", "Juli", "August",
   "September", "Oktober", "November", "Dezember"]

/-- `MONTH_MAP`: German month names to ordinals. -/
def MONTH_MAP : List (String × Nat) :=
  [("januar", 1), ("februar", 2), ("märz", 3), ("april", 4), ("mai", 5),
   ("juni", 6), ("juli", 7), ("august", 8), ("september", 9),
   ("oktober", 10), ("november", 11), ("dezember", 12)]

/-- The numeric value of one ASCII digit character. -/
def digitVal (c : Char) : Nat := c.toNat - 48

/-- After a month name, `MONTH_YEAR_PATTERN` requires `\s+(\d{4})`:
at least one whitespace character, then four digits (captured; anything
may follow).  Returns the four-digit year. -/
def yearAfter : List Char → Option Nat
  | c :: rest =>
      if isPyWS c then
        match rest.dropWhile isPyWS with
        | d1 :: d2 :: d3 :: d4 :: _ =>
            if d1.isDigit && d2.isDigit && d3.isDigit && d4.isDigit then
              some (((digitVal d1 * 10 + digitVal d2) * 10 + digitVal d3) * 10
                    + digitVal d4)
            else none
        | _ => none
      else none
  | [] => none

/-- Try the month alternatives of `MONTH_YEAR_PATTERN` at one position,
in alternation order (case-insensitively); on success return the matched
month text (as it appears in the input) and the year. -/
def tryMonths : List String → List Char → Option (List Char × Nat)
  | [], _ => none
  | name :: rest, l =>
      if ciStarts name.data l then
        match yearAfter (l.drop name.data.length) with
        | some y => some (l.take name.data.length, y)
        | none => tryMonths rest l
      else tryMonths rest l

/-- `MONTH_YEAR_PATTERN.search`: leftmost match of
`(Januar|…|Dezember)\s+(\d{4})` with `re.IGNORECASE`. -/
def monthYearSearch : List Char → Option (List Char × Nat)
  | [] => none
  | l@(_ :: rest) =>
      match tryMonths MONTH_NAMES l with
      | some r => some r
      | none => monthYearSearch rest

/-- `parse_month_year`: extract month and year from message text. -/
def parse_month_year (text : String) : Except String (List Char × Nat) :=
  match monthYearSearch text.data with
  | none => .error "Could not find month and year in message"
  | some (m, y) => .ok (m, y)

/-- Python `text.replace("\r\n", "\n")`: left-to-right non-overlapping
replacement of the exact two-character sequence. -/
def replaceCRLF : List Char → List Char
  | '\r' :: '\n' :: rest => '\n' :: replaceCRLF rest
  | c :: rest => c :: replaceCRLF rest
  | [] => []

/-- `text.replace("\r\n", "\n").replace("\r", "\n")` from
`_extract_section_text`. -/
def normalize_newlines (l : List Char) : List Char :=
  (replaceCRLF l).map (fun c => if c = '\r' then '\n' else c)

/-- Python `str.split("\n")` (keeps empty pieces). -/
def splitNL : List Char → List (List Char)
  | [] => [[]]
  | '\n' :: rest => [] :: splitNL rest
  | c :: rest =>
      match splitNL rest with
      | h :: t => (c :: h) :: t
      | [] => [[c]]

/-- Python `"\n".join(...)`. -/
def joinNL (lines : List (List Char)) : List Char := List.intercalate ['\n'] lines

/-- `SECTION_HEADERS` from `parser.py` (already lowercase). -/
def SECTION_HEADERS : List (List Char) :=
  ["kaltwasser".data, "warmwasser".data, "heizung".data]

/-- `SECTION_END_MARKER` from `parser.py`. -/
def SECTION_END_MARKER : List Char := "falls sie fragen".data

/-- `line.strip().lower()`, the normalization applied to each line in
`_extract_section_text`. -/
def stripLower (l : List Char) : List Char := lowerL (pyStrip l)

/-- The loop-break condition of `_extract_section_text`: the normalized
line equals a *different* section header, or starts with the end
marker. -/
def isSectionBoundary (sectionLower : List Char) (line : List Char) : Bool :=
  let n := stripLower line
  (decide (n ∈ SECTION_HEADERS) && decide (n ≠ sectionLower)) ||
    SECTION_END_MARKER.isPrefixOf n

/-- Index of the section-header line: the first line whose
`strip().lower()` equals the lowercased section name. -/
def findSectionStart (sectionLower : List Char) (lines : List (List Char)) :
    Option Nat :=
  lines.findIdx? (fun line => stripLower line == sectionLower)

/-- The collection loop of `_extract_section_text`: take lines until the
first boundary line. -/
def collectSectionLines (sectionLower : List Char) (rest : List (List Char)) :
    List (List Char) :=
  rest.takeWhile (fun line => !(isSectionBoundary sectionLower line))

/-- `_extract_section_text` from `parser.py`. -/
def extract_section_text (text : String) (section_name : String) :
    Except String (List Char) :=
  let lines := splitNL (normalize_newlines text.data)
  let secLower := lowerL section_name.data
  match findSectionStart secLower lines with
  | none => .error ("Could not find " ++ section_name ++ " section")
  | some i =>
      let sectionText := pyStrip (joinNL (collectSectionLines secLower (lines.drop (i + 1))))
      if sectionText = [] then
        .error ("Could not parse content for " ++ section_name)
      else .ok sectionText

/-- Value of a digit string (the scanners below only feed it ASCII
digits). -/
def digitsToNat (l : List Char) : Nat := l.foldl (fun a c => a * 10 + digitVal c) 0

/-- Python `float` on a string of the shape `digits '.' digits`,
as produced by `_parse_numeric_value` after comma normalization:
the exact value `intpart + fracpart / 10^k` as a rational. -/
def floatOfDotString (s : List Char) : ℚ :=
  let ip := s.takeWhile (fun c => c ≠ '.')
  let fp := (s.drop ip.length).drop 1
  mkRat (digitsToNat ip * 10 ^ fp.length + digitsToNat fp) (10 ^ fp.length)

/-- `_parse_numeric_value`: replace the German decimal comma by a dot and
convert to a number. -/
def parse_numeric_value (s : List Char) : ℚ :=
  floatOfDotString (s.map (fun c => if c = ',' then '.' else c))

/-- The unit alternation `(m³|kWh)` at one position (case-sensitive, as in
`UNIT_PATTERN` and `CURRENT_VALUE_PATTERN`). -/
def unitAt (l : List Char) : Option (List Char) :=
  if "m³".data.isPrefixOf l then some "m³".data
  else if "kWh".data.isPrefixOf l then some "kWh".data
  else none

/-- `UNIT_PATTERN.search`: leftmost occurrence of `m³` or `kWh`. -/
def unitSearch : List Char → Option (List Char)
  | [] => none
  | l@(_ :: rest) =>
      match unitAt l with
      | some u => some u
      | none => unitSearch rest

/-- `CURRENT_VALUE_PATTERN` = `(\d{4}):\s*(\d+[.,]\d+)\s*(m³|kWh)` tried at
one position; on success returns the second group (the decimal literal)
and the length of the whole match.  The pattern is backtracking-free:
whitespace runs and digit runs are maximal. -/
def valueMatchAt : List Char → Option (List Char × Nat)
  | a :: b :: c :: d :: ':' :: rest =>
      if a.isDigit && b.isDigit && c.isDigit && d.isDigit then
        let ws1 := rest.takeWhile isPyWS
        let r1 := rest.drop ws1.length
        let ds1 := r1.takeWhile Char.isDigit
        if ds1 = [] then none
        else
          match r1.drop ds1.length with
          | sep :: r2 =>
              if sep = '.' ∨ sep = ',' then
                let ds2 := r2.takeWhile Char.isDigit
                if ds2 = [] then none
                else
                  let r3 := r2.drop ds2.length
                  let ws2 := r3.takeWhile isPyWS
                  match unitAt (r3.drop ws2.length) with
                  | some u =>
                      some (ds1 ++ sep :: ds2,
                        5 + ws1.length + ds1.length + 1 + ds2.length +
                          ws2.length + u.length)
                  | none => none
              else none
          | [] => none
      else none
  | _ => none

/-- The scan of `CURRENT_VALUE_PATTERN.finditer`: left-to-right,
non-overlapping (continue after each match end); fuel-driven, the fuel
bounds the remaining length and never runs out. -/
def findValueMatchesGo : Nat → List Char → List (List Char)
  | 0, _ => []
  | _, [] => []
  | fuel + 1, l@(_ :: rest) =>
      match valueMatchAt l with
      | some (g2, k) => g2 :: findValueMatchesGo fuel (l.drop k)
      | none => findValueMatchesGo fuel rest

/-- All `CURRENT_VALUE_PATTERN` matches (their second groups) in order. -/
def findValueMatches (l : List Char) : List (List Char) :=
  findValueMatchesGo l.length l

/-- The tail `:\s*(\d+[.,]\d+)\s*(m³|kWh)` of `AVERAGE_PATTERN` at one
position (case-insensitive unit, as the pattern carries `re.IGNORECASE`);
returns the first group. -/
def avgRestAt : List Char → Option (List Char)
  | ':' :: rest =>
      let ws1 := rest.takeWhile isPyWS
      let r1 := rest.drop ws1.length
      let ds1 := r1.takeWhile Char.isDigit
      if ds1 = [] then none
      else
        match r1.drop ds1.length with
        | sep :: r2 =>
            if sep = '.' ∨ sep = ',' then
              let ds2 := r2.takeWhile Char.isDigit
              if ds2 = [] then none
              else
                let r3 := r2.drop ds2.length
                let r4 := r3.drop (r3.takeWhile isPyWS).length
                if ciStarts "m³".data r4 || ciStarts "kWh".data r4 then
                  some (ds1 ++ sep :: ds2)
                else none
            else none
        | [] => none
  | _ => none

/-- The lazy `.*?` of `AVERAGE_PATTERN` (no `re.DOTALL`, so it cannot
cross a newline): try the tail at the shortest offset first. -/
def avgLazyScan : List Char → Option (List Char)
  | [] => none
  | l@(c :: rest) =>
      match avgRestAt l with
      | some g => some g
      | none => if c = '\n' then none else avgLazyScan rest

/-- `AVERAGE_PATTERN` tried at one position: alternative
`Durchschnitt.*?` first, then `Heizung auf Basis.*?`, both
case-insensitive. -/
def avgMatchAt (l : List Char) : Option (List Char) :=
  match (if ciStarts "Durchschnitt".data l then
           avgLazyScan (l.drop 12) else none) with
  | some g => some g
  | none =>
      if ciStarts "Heizung auf Basis".data l then
        avgLazyScan (l.drop 17)
      else none

/-- `AVERAGE_PATTERN.search`: leftmost match; returns the captured decimal
literal. -/
def avgSearch : List Char → Option (List Char)
  | [] => none
  | l@(_ :: rest) =>
      match avgMatchAt l with
      | some g => some g
      | none => avgSearch rest

/-- `if not match: raise ValueError(msg)` followed by using the match:
turn an optional search result into an exceptional one. -/
def requireSome {α : Type} (x : Option α) (msg : String) : Except String α :=
  match x with
  | none => .error msg
  | some a => .ok a

/-- `if len(current_matches) < 2: raise ...` followed by taking the first
two matches. -/
def requireTwo (l : List (List Char)) (msg : String) :
    Except String (List Char × List Char) :=
  match l with
  | g0 :: g1 :: _ => .ok (g0, g1)
  | _ => .error msg

/-- `parse_consumption_section` from `parser.py`.  The sequence of
potentially raising statements is the `Except.bind` chain. -/
def parse_consumption_section (text : String) (section_name : String) :
    Except String ConsumptionData :=
  Except.bind (extract_section_text text section_name) (fun sectionText =>
  Except.bind (requireSome (unitSearch sectionText)
      ("Could not determine unit for " ++ section_name)) (fun unit =>
  Except.bind (requireTwo (findValueMatches sectionText)
      ("Could not find both current month and previous year values for "
        ++ section_name)) (fun gs =>
  Except.bind (requireSome (avgSearch sectionText)
      ("Could not find property average for " ++ section_name)) (fun ga =>
  mkConsumptionData (parse_numeric_value gs.1) (parse_numeric_value gs.2)
    (parse_numeric_value ga) (String.mk unit)))))

/-- `parse_message` from `parser.py`: parse raw message text and extract
all consumption data.  The `MONTH_MAP[month.lower()]` subscript is a
`KeyError` when absent (it never is: the month was matched against the
same vocabulary). -/
def parse_message (raw : String) : Except String ParsedMessage :=
  let content_hash := generate_content_hash raw
  Except.bind (parse_month_year raw) (fun my =>
  Except.bind (requireSome (MONTH_MAP.lookup (pyLowerStr (String.mk my.1)))
      "KeyError: month name missing from MONTH_MAP") (fun month_num =>
  Except.bind (mkPyDate my.2 month_num 1) (fun message_date =>
  Except.bind (parse_consumption_section raw "Kaltwasser") (fun kaltwasser =>
  Except.bind (parse_consumption_section raw "Warmwasser") (fun warmwasser =>
  Except.bind (parse_consumption_section raw "Heizung") (fun heizung =>
  mkParsedMessage (String.mk my.1) my.2 message_date kaltwasser warmwasser
    heizung raw content_hash))))))

/-- Whether an `Except` value is a success. -/
def exceptIsOk {α : Type} : Except String α → Bool
  | .ok _ => true
  | .error _ => false

/-- Decidable equality of results, for concrete evaluations. -/
instance {α : Type} [DecidableEq α] : DecidableEq (Except String α) := fun a b =>
  match a, b with
  | .ok x, .ok y =>
      if h : x = y then .isTrue (by rw [h]) else .isFalse (by simp [h])
  | .error e, .error f =>
      if h : e = f then .isTrue (by rw [h]) else .isFalse (by simp [h])
  | .ok _, .error _ => .isFalse (by simp)
  | .error _, .ok _ => .isFalse (by simp)

/-! ### Text extraction (`src/scraper.py`, `_extract_consumption_from_text`)

The three `re.sub` normalizations are embedded as one-pass character
state machines; the anchored extraction regex (lazy body with a
lookahead for closing phrases, `re.DOTALL | re.IGNORECASE`) as a scanner
with the same leftmost/lazy semantics. -/

/-- `re.sub(r"\r\n?", "\n", text)`: the flag records whether the previous
character was a `\r` (whose optional following `\n` was consumed by the
same match). -/
def clean1go : Bool → List Char → List Char
  | _, [] => []
  | prevCR, c :: rest =>
      if c = '\r' then '\n' :: clean1go true rest
      else if c = '\n' then
        (if prevCR then [] else ['\n']) ++ clean1go false rest
      else c :: clean1go false rest

/-- `re.sub(r"[ \t]+", " ", text)`: the flag records whether the previous
character belonged to a space/tab run already replaced. -/
def clean2go : Bool → List Char → List Char
  | _, [] => []
  | prev, c :: rest =>
      if c = ' ' ∨ c = '\t' then
        (if prev then [] else [' ']) ++ clean2go true rest
      else c :: clean2go false rest

/-- `re.sub(r"\n{3,}", "\n\n", text)`: the counter records how many
newlines of the current run have been seen; a run of length ≥ 3 emits
exactly two. -/
def clean3go : Nat → List Char → List Char
  | _, [] => []
  | k, c :: rest =>
      if c = '\n' then (if 2 ≤ k then [] else ['\n']) ++ clean3go (k + 1) rest
      else c :: clean3go 0 rest

/-- The full normalization pipeline of `_extract_consumption_from_text`. -/
def cleanAll (l : List Char) : List Char := clean3go 0 (clean2go false (clean1go false l))

/-- The case-sensitive marker keyword anchoring consumption extraction. -/
def MARKER : List Char := "Verbrauchswerte".data

/-- The closing phrases of the extraction pattern's lookahead. -/
def CLOSERS : List (List Char) :=
  ["Falls Sie Fragen".data, "Mit freundlichen".data, "Viele Grüße".data,
   "Bitte beachten".data]

/-- The lookahead `(?=\n(?:Falls Sie Fragen|Mit freundlichen|Viele Grüße|Bitte beachten))`
at the current position (case-insensitive). -/
def closerAt (l : List Char) : Bool :=
  match l with
  | '\n' :: rest => CLOSERS.any (fun c => ciStarts c rest)
  | _ => false

/-- The lazy `.*?` body (with `re.DOTALL`): consume characters until the
first position where the closer lookahead succeeds, or the end of input
(the `\Z` alternative). -/
def lazyBody : List Char → List Char
  | [] => []
  | l@(c :: rest) => if closerAt l then [] else c :: lazyBody rest

/-- The extraction regex searched leftmost: at the first case-insensitive
occurrence of the marker, the match is the marker text plus the lazy
body.  (Because of the `\Z` alternative the pattern matches whenever the
marker occurs.) -/
def primaryMatch : List Char → Option (List Char)
  | [] => none
  | l@(_ :: rest) =>
      if ciStarts MARKER l then
        some (l.take MARKER.length ++ lazyBody (l.drop MARKER.length))
      else primaryMatch rest

/-- `cleaned.lower().find("verbrauchswerte")` of the fallback branch:
index of the first case-insensitive marker occurrence. -/
def findCIIdxGo : Nat → List Char → Option Nat
  | _, [] => none
  | i, l@(_ :: rest) => if ciStarts MARKER l then some i else findCIIdxGo (i + 1) rest

/-- `CONSUMPTION_EXTRACT_MAX_LENGTH` from `scraper.py`. -/
def CONSUMPTION_EXTRACT_MAX_LENGTH : Nat := 3500

/-- `_extract_consumption_from_text` over character lists. -/
def extract_consumption_core (text : List Char) : Option (List Char) :=
  if ¬ MARKER <:+: text then none
  else
    let cleaned := cleanAll text
    match primaryMatch cleaned with
    | some g => some (pyStrip g)
    | none =>
        match findCIIdxGo 0 cleaned with
        | some idx => some (pyStrip ((cleaned.drop idx).take CONSUMPTION_EXTRACT_MAX_LENGTH))
        | none => none

/-- `_extract_consumption_from_text` from `scraper.py`. -/
def extract_consumption_from_text (text : String) : Option String :=
  (extract_consumption_core text.data).map String.mk

/-! ### Candidate scoring and selection (`src/scraper.py`) -/

/-- The utility-category keywords of `_score_message_candidate`. -/
def KEYWORDS : List (List Char) :=
  ["Kaltwasser".data, "Warmwasser".data, "Heizung".data]

/-- `re.search(keyword, text, re.IGNORECASE)` for a fixed literal keyword:
case-insensitive substring occurrence. -/
def ciContains (l p : List Char) : Bool := decide (lowerL p <:+: lowerL l)

/-- `_score_message_candidate`: character length plus 500 per
case-insensitively occurring keyword. -/
def score_message_candidate (m : List Char) : Nat :=
  KEYWORDS.foldl (fun s kw => if ciContains m kw then s + 500 else s) m.length

/-- The selection loop of `_find_latest_consumption_message_from_html`
over the collected candidates: extract, skip empty, keep the strictly
best score (`best_score` starts at `-1`). -/
def find_best_candidate_go :
    List (List Char) → Option (List Char) → Int → Option (List Char)
  | [], best, _ => best
  | c :: rest, best, bestScore =>
      match extract_consumption_core c with
      | none => find_best_candidate_go rest best bestScore
      | some m =>
          if m = [] then find_best_candidate_go rest best bestScore
          else
            if bestScore < (score_message_candidate m : Int) then
              find_best_candidate_go rest (some m) (score_message_candidate m)
            else find_best_candidate_go rest best bestScore

/-- The candidate selection of `_find_latest_consumption_message_from_html`
(the pure part: the candidate list stands for the texts collected from
the fetched page). -/
def find_best_candidate (cands : List (List Char)) : Option (List Char) :=
  find_best_candidate_go cands none (-1)

/-! ### Deduplication (`src/scraper.py`, `_deduplicate_and_limit`) -/

/-- `re.sub(r"\s+", " ", message)`: collapse whitespace runs to one
space. -/
def collapseWSgo : Bool → List Char → List Char
  | _, [] => []
  | prev, c :: rest =>
      if isPyWS c then (if prev then [] else [' ']) ++ collapseWSgo true rest
      else c :: collapseWSgo false rest

/-- `re.sub(r"\s+", " ", message).strip()`, the dedup normalization. -/
def pyNormalizeWS (s : String) : String := String.mk (pyStrip (collapseWSgo false s.data))

/-- Python string `<`: lexicographic comparison by code point. -/
def pyStrLt : List Char → List Char → Bool
  | [], [] => false
  | [], _ :: _ => true
  | _ :: _, [] => false
  | a :: as, b :: bs =>
      if a.toNat < b.toNat then true
      else if b.toNat < a.toNat then false
      else pyStrLt as bs

/-- The comparison realized by
`candidates.sort(key=lambda item: item[0], reverse=True)`: `p` may stay
before `q` iff `p`'s timestamp is not smaller — descending order, with
ties keeping the original (stable) order. -/
def tsGE (p q : String × String) : Prop := pyStrLt p.1.data q.1.data = false

instance : DecidableRel tsGE := fun p q =>
  inferInstanceAs (Decidable (pyStrLt p.1.data q.1.data = false))

/-- `candidates.sort(key=lambda item: item[0], reverse=True)`: Python's
sort is stable; a stable sort by the comparison `tsGE` is realized by
insertion sort. -/
def pySortDesc (l : List (String × String)) : List (String × String) :=
  List.insertionSort tsGE l

/-- `limit is not None and len(messages) >= limit`, checked after each
append (`count` is the number of retained messages). -/
def hitLimit : Option Int → Nat → Bool
  | none, _ => false
  | some k, count => k ≤ (count : Int)

/-- The dedup loop of `_deduplicate_and_limit`: `seen` is the set of
normalized texts already retained, `retained` their count. -/
def dedupGo (limit : Option Int) (seen : List String) (retained : Nat) :
    List (String × String) → List String
  | [] => []
  | (_, msg) :: rest =>
      let n := pyNormalizeWS msg
      if n ∈ seen then dedupGo limit seen retained rest
      else
        msg :: (if hitLimit limit (retained + 1) then []
                else dedupGo limit (n :: seen) (retained + 1) rest)

/-- `_deduplicate_and_limit` from `scraper.py`.  The Python method sorts
`candidates` in place; the first component of the result is the list's
state after the call, the second the returned message list. -/
def deduplicate_and_limit (candidates : List (String × String)) (limit : Option Int) :
    List (String × String) × List String :=
  if candidates = [] then (candidates, [])
  else
    let sorted := pySortDesc candidates
    (sorted, dedupGo limit [] 0 sorted)

/-! ### Specification-side definitions (for refinement statements)

These follow the spec's wording and are compared with the embedded code
in the theorems below. -/

/-- Spec wording: "deduplicate by normalized text … keeping first
occurrence", without any limit. -/
def dedupKeepFirst (seen : List String) : List (String × String) → List String
  | [] => []
  | (_, msg) :: rest =>
      if pyNormalizeWS msg ∈ seen then dedupKeepFirst seen rest
      else msg :: dedupKeepFirst (pyNormalizeWS msg :: seen) rest

/-- Truncation as the code actually applies it: a positive limit keeps at
most that many messages; a limit `≤ 0` still lets the first retained
message through (the length check runs after the first append). -/
def applyLimitAmended (limit : Option Int) (msgs : List String) : List String :=
  match limit with
  | none => msgs
  | some k => msgs.take (if k ≤ 0 then 1 else k.toNat)

/-- Proof-side restatement of the selection loop, over already-extracted
messages. -/
def goMsgs : List (List Char) → Option (List Char) → Int → Option (List Char)
  | [], best, _ => best
  | m :: rest, best, bestScore =>
      if bestScore < (score_message_candidate m : Int) then
        goMsgs rest (some m) (score_message_candidate m)
      else goMsgs rest best bestScore

/-- The running best of the selection loop seeded with `b`. -/
def bestAcc (b : List Char) (l : List (List Char)) : List Char :=
  l.foldl (fun acc n =>
    if score_message_candidate acc < score_message_candidate n then n else acc) b

/-- Spec wording: `x` has the highest score among the candidates of `l`
(the selected candidate is the **first** such element in scan order). -/
def isMaxOf (l : List (List Char)) (x : List Char) : Bool :=
  l.all (fun n => decide (score_message_candidate n ≤ score_message_candidate x))

/-! ### Concrete messages used by witnesses and counterexamples -/

/-- A well-formed consumption message (December 2025, all three sections). -/
def sampleMessage2025 : String :=
  "Verbrauchswerte Dezember 2025\nKaltwasser\n2025: 1,5 m³\n2024: 1,3 m³\nDurchschnitt der Liegenschaft: 1,4 m³\nWarmwasser\n2025: 0,8 m³\n2024: 0,9 m³\nDurchschnitt der Liegenschaft: 0,7 m³\nHeizung\n2025: 120,5 kWh\n2024: 110,0 kWh\nHeizung auf Basis des Verbrauchs: 100,0 kWh\nFalls Sie Fragen haben"

/-- A well-formed consumption message whose year (1999) lies outside
`[2000, 2100]` but is a valid calendar year. -/
def sampleMessage1999 : String :=
  "Verbrauchswerte Dezember 1999\nKaltwasser\n1999: 1,5 m³\n1998: 1,3 m³\nDurchschnitt: 1,4 m³\nWarmwasser\n1999: 0,8 m³\n1998: 0,9 m³\nDurchschnitt: 0,7 m³\nHeizung\n1999: 120,5 kWh\n1998: 110,0 kWh\nHeizung auf Basis: 100,0 kWh\n"

/-- A message with a month/year whose year is `0000` and a parseable
Kaltwasser section, but no Warmwasser line. -/
def sampleMessageYear0 : String :=
  "Januar 0000\nKaltwasser\n2024: 1,0 m³\n2023: 1,0 m³\nDurchschnitt: 1,0 m³\n"

/-! ### Lemmas: hash format (for C3) -/

/-- Each word contributes exactly eight hex digits. -/
theorem wordHex_length (w : Nat) : (wordHex w).length = 8 := by
  simp [wordHex]

/-- `hexChar` of a nibble is a lowercase hexadecimal digit. -/
theorem hexChar_mem_alphabet (n : Nat) (h : n < 16) :
    hexChar n ∈ "0123456789abcdef".data := by
  interval_cases n <;> decide

/-- The hex digest always has 64 characters. -/
theorem sha256HexList_length (msg : List Nat) : (sha256HexList msg).length = 64 := by
  simp [sha256HexList, wordHex]

/-- Every character of the hex digest is a lowercase hexadecimal digit. -/
theorem sha256HexList_mem (msg : List Nat) (c : Char) (h : c ∈ sha256HexList msg) :
    c ∈ "0123456789abcdef".data := by
  simp only [sha256HexList, List.mem_append, wordHex, List.mem_map,
    List.mem_range] at h
  rcases h with ((((((h | h) | h) | h) | h) | h) | h) | h <;>
    · obtain ⟨i, -, rfl⟩ := h
      exact hexChar_mem_alphabet _ (Nat.mod_lt _ (by norm_num))

/-- Claim C3: `parse_message` is deterministic (identical input yields the
identical result, in particular the identical `content_hash` and field
values), and `generate_content_hash` returns a 64-character lowercase
hexadecimal string that depends only on the raw message text. -/
theorem parse_deterministic_hash_hex (s : String) :
    parse_message s = parse_message s ∧
    (generate_content_hash s).length = 64 ∧
    (∀ c ∈ (generate_content_hash s).data, c ∈ "0123456789abcdef".data) ∧
    (∀ t : String, s = t → generate_content_hash s = generate_content_hash t) := by
  refine ⟨rfl, ?_, ?_, ?_⟩
  · show (String.mk (sha256HexList (utf8Encode s))).length = 64
    rw [String.length_mk]
    exact sha256HexList_length _
  · intro c hc
    exact sha256HexList_mem _ c hc
  · intro t h
    rw [h]

/-- Witness for C3 at a concrete input. -/
theorem parse_deterministic_hash_hex_witness :
    ("abc" : String) = "abc" ∧ (generate_content_hash "abc").length = 64 :=
  ⟨rfl, (parse_deterministic_hash_hex "abc").2.1⟩

/-! ### Inversion lemmas for the exception monad embedding -/

/-- A bind chain succeeds exactly when both stages succeed. -/
theorem exceptBind_eq_ok {α β : Type} (x : Except String α)
    (f : α → Except String β) (b : β) :
    Except.bind x f = .ok b ↔ ∃ a, x = .ok a ∧ f a = .ok b := by
  cases x <;> simp [Except.bind]

/-- `requireSome` succeeds exactly on `some`. -/
theorem requireSome_eq_ok {α : Type} (x : Option α) (msg : String) (a : α) :
    requireSome x msg = .ok a ↔ x = some a := by
  cases x <;> simp [requireSome]

/-- `requireTwo` succeeds exactly on lists with two or more elements. -/
theorem requireTwo_eq_ok (l : List (List Char)) (msg : String)
    (p : List Char × List Char) :
    requireTwo l msg = .ok p ↔ ∃ rest, l = p.1 :: p.2 :: rest := by
  match l with
  | [] => simp [requireTwo]
  | [g] => simp [requireTwo]
  | g0 :: g1 :: rest =>
      simp only [requireTwo, Except.ok.injEq]
      constructor
      · rintro rfl; exact ⟨rest, rfl⟩
      · rintro ⟨r, h⟩
        obtain ⟨rfl, rfl, -⟩ := by simpa using h
        rfl

/-- Inversion of a successful `mkConsumptionData`. -/
theorem mkConsumptionData_ok (cm py pa : ℚ) (u : String) (cd : ConsumptionData)
    (h : mkConsumptionData cm py pa u = .ok cd) : cd = ⟨cm, py, pa, u⟩ := by
  unfold mkConsumptionData at h
  split at h
  · simp at h
  · cases h; rfl

/-- Inversion of a successful `mkParsedMessage`. -/
theorem mkParsedMessage_ok (month : String) (year : Nat) (md : PyDate)
    (kw ww hz : ConsumptionData) (raw ch : String) (pm : ParsedMessage)
    (h : mkParsedMessage month year md kw ww hz raw ch = .ok pm) :
    (2000 ≤ year ∧ year ≤ 2100) ∧
      pm = ⟨month, year, md, kw, ww, hz, raw, ch⟩ := by
  unfold mkParsedMessage at h
  split at h
  · simp at h
  · rename_i hy
    push_neg at hy
    cases h
    exact ⟨⟨hy.1, hy.2⟩, rfl⟩

/-! ### Lemmas: parsed values are non-negative, units fixed (for C1) -/

/-- Numeric values produced by `_parse_numeric_value` are non-negative
(they are built from digit characters only). -/
theorem parse_numeric_value_nonneg (s : List Char) : 0 ≤ parse_numeric_value s := by
  unfold parse_numeric_value floatOfDotString
  rw [Rat.mkRat_eq_div]
  positivity

/-- `unitAt` only ever produces the two fixed unit tokens. -/
theorem unitAt_eq (l u : List Char) (h : unitAt l = some u) :
    u = "m³".data ∨ u = "kWh".data := by
  unfold unitAt at h
  split_ifs at h <;> simp_all

/-- `UNIT_PATTERN.search` only ever produces the two fixed unit tokens. -/
theorem unitSearch_mem : ∀ (l u : List Char), unitSearch l = some u →
    u = "m³".data ∨ u = "kWh".data := by
  intro l
  induction l with
  | nil => intro u h; simp [unitSearch] at h
  | cons c rest ih =>
      intro u h
      unfold unitSearch at h
      cases hA : unitAt (c :: rest) with
      | some v => rw [hA] at h; cases h; exact unitAt_eq _ _ hA
      | none => rw [hA] at h; exact ih u h

/-- A successfully parsed section has non-negative values and one of the
two fixed units. -/
theorem parse_consumption_section_ok (text section_name : String)
    (cd : ConsumptionData)
    (h : parse_consumption_section text section_name = .ok cd) :
    0 ≤ cd.current_month ∧ 0 ≤ cd.previous_year ∧ 0 ≤ cd.property_average ∧
    (cd.unit = "m³" ∨ cd.unit = "kWh") := by
  simp only [parse_consumption_section, exceptBind_eq_ok, requireSome_eq_ok] at h
  obtain ⟨st, hst, u, hu, gs, hgs, ga, hga, hmk⟩ := h
  obtain rfl := mkConsumptionData_ok _ _ _ _ _ hmk
  refine ⟨parse_numeric_value_nonneg _, parse_numeric_value_nonneg _,
    parse_numeric_value_nonneg _, ?_⟩
  rcases unitSearch_mem st u hu with h | h <;> subst h
  · left; rfl
  · right; rfl

/-- Inversion of a successful `parse_message`: the three stored sections
are the three successful section parses. -/
theorem parse_message_ok_sections (raw : String) (pm : ParsedMessage)
    (h : parse_message raw = .ok pm) :
    parse_consumption_section raw "Kaltwasser" = .ok pm.kaltwasser ∧
    parse_consumption_section raw "Warmwasser" = .ok pm.warmwasser ∧
    parse_consumption_section raw "Heizung" = .ok pm.heizung := by
  simp only [parse_message, exceptBind_eq_ok, requireSome_eq_ok] at h
  obtain ⟨my, hmy, mn, hmn, md, hmd, kw, hk, ww, hw, hz, hh, hmk⟩ := h
  obtain ⟨-, rfl⟩ := mkParsedMessage_ok _ _ _ _ _ _ _ _ _ hmk
  exact ⟨hk, hw, hh⟩

/-- Claim C1: whenever `parse_message` succeeds, all three
`ConsumptionData` instances have non-negative `current_month`,
`previous_year` and `property_average`, and each `unit` is one of the two
fixed tokens `"m³"` and `"kWh"`. -/
theorem parse_message_nonneg_units (raw : String) (pm : ParsedMessage)
    (h : parse_message raw = .ok pm) :
    (0 ≤ pm.kaltwasser.current_month ∧ 0 ≤ pm.kaltwasser.previous_year ∧
      0 ≤ pm.kaltwasser.property_average ∧
      (pm.kaltwasser.unit = "m³" ∨ pm.kaltwasser.unit = "kWh")) ∧
    (0 ≤ pm.warmwasser.current_month ∧ 0 ≤ pm.warmwasser.previous_year ∧
      0 ≤ pm.warmwasser.property_average ∧
      (pm.warmwasser.unit = "m³" ∨ pm.warmwasser.unit = "kWh")) ∧
    (0 ≤ pm.heizung.current_month ∧ 0 ≤ pm.heizung.previous_year ∧
      0 ≤ pm.heizung.property_average ∧
      (pm.heizung.unit = "m³" ∨ pm.heizung.unit = "kWh")) := by
  obtain ⟨hk, hw, hh⟩ := parse_message_ok_sections raw pm h
  exact ⟨parse_consumption_section_ok _ _ _ hk,
    parse_consumption_section_ok _ _ _ hw,
    parse_consumption_section_ok _ _ _ hh⟩

/-- Witness for C1: a concrete message on which `parse_message` succeeds,
with the claimed properties. -/
theorem parse_message_nonneg_units_witness :
    ∃ pm, parse_message sampleMessage2025 = Except.ok pm ∧
      0 ≤ pm.kaltwasser.current_month ∧
      (pm.heizung.unit = "m³" ∨ pm.heizung.unit = "kWh") := by
  have hok : exceptIsOk (parse_message sampleMessage2025) = true := by decide
  obtain ⟨pm, hp⟩ : ∃ pm, parse_message sampleMessage2025 = .ok pm := by
    cases hq : parse_message sampleMessage2025 with
    | ok pm => exact ⟨pm, rfl⟩
    | error e => rw [hq] at hok; simp [exceptIsOk] at hok
  obtain ⟨h1, -, h3⟩ := parse_message_nonneg_units sampleMessage2025 pm hp
  exact ⟨pm, hp, h1.1, h3.2.2.2⟩

/-! ### Lemmas: section boundary detection (for C2) -/

/-- The first element dropped by `dropWhile` fails the predicate. -/
theorem dropWhile_head_false {α : Type} (p : α → Bool) :
    ∀ (l : List α) (b : α) (bs : List α), l.dropWhile p = b :: bs → p b = false := by
  intro l
  induction l with
  | nil => intro b bs h; simp at h
  | cons x xs ih =>
      intro b bs h
      by_cases hp : p x
      · rw [List.dropWhile_cons_of_pos hp] at h
        exact ih _ _ h
      · rw [List.dropWhile_cons_of_neg hp] at h
        cases h
        simpa using hp

/-- A line whose normalized content is the word `heizung` followed by
anything non-empty is not a section boundary. -/
theorem heizung_continuation_not_boundary (secLower line x : List Char)
    (hx : x ≠ []) (hline : stripLower line = "heizung".data ++ x) :
    isSectionBoundary secLower line = false := by
  have h1 : stripLower line ∉ SECTION_HEADERS := by
    rw [hline]
    intro hmem
    simp only [SECTION_HEADERS, List.mem_cons, List.not_mem_nil, or_false] at hmem
    rcases hmem with h | h | h
    · have h' : 'h' :: ("eizung".data ++ x) = 'k' :: "altwasser".data := h
      have := List.cons.injEq .. ▸ h'
      simp at this
    · have h' : 'h' :: ("eizung".data ++ x) = 'w' :: "armwasser".data := h
      have := List.cons.injEq .. ▸ h'
      simp at this
    · have h' := congrArg List.length h
      simp [List.length_append] at h'
      exact hx h'
  have h2 : SECTION_END_MARKER.isPrefixOf (stripLower line) = false := by
    rw [hline]
    rfl
  simp only [isSectionBoundary]
  rw [decide_eq_false h1, h2]
  simp

/-- Claim C2: the collection loop of `_extract_section_text` keeps exactly
the lines before the first boundary line — a boundary being a line whose
normalized content equals a different section header or starts with the
closing marker — and a line beginning with the word `Heizung` followed by
further text is never a boundary, so it stays inside the collected
section. -/
theorem section_collection_stops_at_first_boundary (secLower : List Char)
    (rest : List (List Char)) :
    (collectSectionLines secLower rest ++
        rest.dropWhile (fun line => !(isSectionBoundary secLower line)) = rest ∧
      (∀ l ∈ collectSectionLines secLower rest,
        isSectionBoundary secLower l = false) ∧
      (∀ b bs,
        rest.dropWhile (fun line => !(isSectionBoundary secLower line)) = b :: bs →
        isSectionBoundary secLower b = true)) ∧
    (∀ line x, x ≠ [] → stripLower line = "heizung".data ++ x →
      isSectionBoundary secLower line = false) := by
  refine ⟨⟨?_, ?_, ?_⟩, fun line x hx hl => heizung_continuation_not_boundary _ _ _ hx hl⟩
  · exact List.takeWhile_append_dropWhile _ _
  · intro l hl
    have := List.mem_takeWhile_imp hl
    simpa using this
  · intro b bs h
    have := dropWhile_head_false _ rest b bs h
    simpa using this

/-- Witness for C2: the heating average-basis line is collected, not
treated as a boundary. -/
theorem section_collection_witness :
    (" auf basis des verbrauchs".data ≠ ([] : List Char)) ∧
    stripLower "Heizung auf Basis des Verbrauchs".data =
      "heizung".data ++ " auf basis des verbrauchs".data ∧
    isSectionBoundary "heizung".data "Heizung auf Basis des Verbrauchs".data = false := by
  refine ⟨by decide, by decide, ?_⟩
  exact (section_collection_stops_at_first_boundary "heizung".data []).2
    "Heizung auf Basis des Verbrauchs".data " auf basis des verbrauchs".data
    (by decide) (by decide)

/-! ### Lemmas: month lookup and error propagation (for C4 and C8) -/

/-- A successful `monthYearSearch` starts at a case-insensitive match of
one of the twelve vocabulary names. -/
theorem tryMonths_ok : ∀ (names : List String) (l : List Char)
    (m : List Char) (y : Nat), tryMonths names l = some (m, y) →
    ∃ name ∈ names, ciStarts name.data l = true ∧ m = l.take name.data.length := by
  intro names
  induction names with
  | nil => intro l m y h; simp [tryMonths] at h
  | cons name rest ih =>
      intro l m y h
      unfold tryMonths at h
      by_cases hc : ciStarts name.data l
      · rw [if_pos hc] at h
        cases hy : yearAfter (l.drop name.data.length) with
        | some y' =>
            rw [hy] at h
            obtain ⟨rfl, -⟩ := by simpa using h
            exact ⟨name, List.mem_cons_self _ _, hc, rfl⟩
        | none =>
            rw [hy] at h
            obtain ⟨nm, hmem, hci, hm⟩ := ih l m y h
            exact ⟨nm, List.mem_cons_of_mem _ hmem, hci, hm⟩
      · rw [if_neg hc] at h
        obtain ⟨nm, hmem, hci, hm⟩ := ih l m y h
        exact ⟨nm, List.mem_cons_of_mem _ hmem, hci, hm⟩

/-- A successful search happened at some suffix of the text. -/
theorem monthYearSearch_ok : ∀ (l : List Char) (m : List Char) (y : Nat),
    monthYearSearch l = some (m, y) →
    ∃ l', tryMonths MONTH_NAMES l' = some (m, y) := by
  intro l
  induction l with
  | nil => intro m y h; simp [monthYearSearch] at h
  | cons c rest ih =>
      intro m y h
      unfold monthYearSearch at h
      cases ht : tryMonths MONTH_NAMES (c :: rest) with
      | some r => rw [ht] at h; cases h; exact ⟨c :: rest, ht⟩
      | none => rw [ht] at h; exact ih m y h

/-- The lowercased text of a matched month name is a `MONTH_MAP` key with
an ordinal between 1 and 12. -/
theorem month_lookup_of_parse (raw : String) (m : List Char) (y : Nat)
    (h : parse_month_year raw = .ok (m, y)) :
    ∃ n, MONTH_MAP.lookup (pyLowerStr (String.mk m)) = some n ∧
      1 ≤ n ∧ n ≤ 12 := by
  have hs : monthYearSearch raw.data = some (m, y) := by
    unfold parse_month_year at h
    cases hq : monthYearSearch raw.data with
    | none => rw [hq] at h; simp at h
    | some r =>
        rw [hq] at h
        obtain ⟨m', y'⟩ := r
        obtain ⟨rfl, rfl⟩ := by simpa using h
        rfl
  obtain ⟨l', hl'⟩ := monthYearSearch_ok _ _ _ hs
  obtain ⟨name, hmem, hci, rfl⟩ := tryMonths_ok _ _ _ _ hl'
  have hlow : lowerL (l'.take name.data.length) = lowerL name.data :=
    of_decide_eq_true hci
  have hkey : pyLowerStr (String.mk (l'.take name.data.length)) =
      String.mk (lowerL name.data) := congrArg String.mk hlow
  rw [hkey]
  fin_cases hmem <;> exact ⟨_, rfl, by decide, by decide⟩

/-- When no line of the message normalizes to the section name, section
extraction fails naming the section. -/
theorem extract_section_text_missing (text : String) (section_name : String)
    (h : ∀ line ∈ splitNL (normalize_newlines text.data),
      stripLower line ≠ lowerL section_name.data) :
    extract_section_text text section_name =
      .error ("Could not find " ++ section_name ++ " section") := by
  have hnone : (splitNL (normalize_newlines text.data)).findIdx?
      (fun line => stripLower line == lowerL section_name.data) = none :=
    List.findIdx?_eq_none_iff.mpr (fun line hl => beq_eq_false_iff_ne.mpr (h line hl))
  simp only [extract_section_text, findSectionStart]
  rw [hnone]

/-- Claim C4 (amended): a raw message with a located month/year whose year
is a valid calendar year, a parseable Kaltwasser section, and no line
normalizing to `warmwasser`, makes `parse_message` fail with an error
naming `Warmwasser` (and no `ParsedMessage` is produced). -/
theorem missing_warmwasser_named_error (raw : String) (m : List Char) (y : Nat)
    (hmy : parse_month_year raw = .ok (m, y)) (hy1 : 1 ≤ y) (hy9 : y ≤ 9999)
    (hk : exceptIsOk (parse_consumption_section raw "Kaltwasser") = true)
    (hno : ∀ line ∈ splitNL (normalize_newlines raw.data),
      stripLower line ≠ "warmwasser".data) :
    ∃ e, parse_message raw = .error e ∧ "Warmwasser".data <:+: e.data := by
  obtain ⟨n, hlook, hn1, hn12⟩ := month_lookup_of_parse raw m y hmy
  have hdate : mkPyDate y n 1 = .ok ⟨y, n, 1⟩ := by
    unfold mkPyDate
    rw [if_neg (by omega), if_neg (by omega)]
  obtain ⟨kv, hkv⟩ : ∃ kv, parse_consumption_section raw "Kaltwasser" = .ok kv := by
    cases hq : parse_consumption_section raw "Kaltwasser" with
    | ok kv => exact ⟨kv, rfl⟩
    | error e => rw [hq] at hk; simp [exceptIsOk] at hk
  have hww : extract_section_text raw "Warmwasser" =
      .error "Could not find Warmwasser section" := by
    have h9 : ∀ line ∈ splitNL (normalize_newlines raw.data),
        stripLower line ≠ lowerL "Warmwasser".data := by
      intro line hline
      rw [show lowerL "Warmwasser".data = "warmwasser".data from by decide]
      exact hno line hline
    exact extract_section_text_missing raw "Warmwasser" h9
  have hwwp : parse_consumption_section raw "Warmwasser" =
      .error "Could not find Warmwasser section" := by
    simp [parse_consumption_section, hww, Except.bind]
  refine ⟨"Could not find Warmwasser section", ?_, by decide⟩
  simp [parse_message, hmy, Except.bind, requireSome, hlook, hdate, hkv, hwwp]

/-- Witness for C4 (amended) at a concrete message lacking a Warmwasser
line. -/
theorem missing_warmwasser_named_error_witness :
    ∃ e, parse_message "Januar 2025\nKaltwasser\n2024: 1,0 m³\n2023: 1,0 m³\nDurchschnitt: 1,0 m³\n" =
      .error e ∧ "Warmwasser".data <:+: e.data := by
  refine missing_warmwasser_named_error _ "Januar".data 2025 (by decide)
    (by decide) (by decide) (by decide) (by decide)

/-- Counterexample to C4 as stated: a message containing a month/year
pattern (`Januar 0000`) and a parseable Kaltwasser section and no
Warmwasser line, on which `parse_message` fails with the date error
`year 0 is out of range`, which does not name `Warmwasser`. -/
theorem missing_warmwasser_cex :
    exceptIsOk (parse_month_year sampleMessageYear0) = true ∧
    exceptIsOk (parse_consumption_section sampleMessageYear0 "Kaltwasser") = true ∧
    (∀ line ∈ splitNL (normalize_newlines sampleMessageYear0.data),
      stripLower line ≠ "warmwasser".data) ∧
    parse_message sampleMessageYear0 = .error "year 0 is out of range" ∧
    ¬ ("Warmwasser".data <:+: "year 0 is out of range".data) := by
  exact ⟨by decide, by decide, by decide, by decide, by decide⟩

/-! ### Claim C8: where the year-range validation actually happens -/

/-- Claim C8 (amended): for a located year that is a valid calendar year
but outside `[2000, 2100]`, and all three sections parseable, the parse
fails with the year-range validation error — raised by the
`ParsedMessage` validator after section parsing, not before it. -/
theorem year_range_error_after_sections (raw : String) (m : List Char) (y : Nat)
    (hmy : parse_month_year raw = .ok (m, y)) (hy1 : 1 ≤ y) (hy9 : y ≤ 9999)
    (hout : y < 2000 ∨ 2100 < y)
    (hk : exceptIsOk (parse_consumption_section raw "Kaltwasser") = true)
    (hw : exceptIsOk (parse_consumption_section raw "Warmwasser") = true)
    (hh : exceptIsOk (parse_consumption_section raw "Heizung") = true) :
    parse_message raw = .error "Year must be between 2000 and 2100" := by
  obtain ⟨n, hlook, hn1, hn12⟩ := month_lookup_of_parse raw m y hmy
  have hdate : mkPyDate y n 1 = .ok ⟨y, n, 1⟩ := by
    unfold mkPyDate
    rw [if_neg (by omega), if_neg (by omega)]
  obtain ⟨kv, hkv⟩ : ∃ kv, parse_consumption_section raw "Kaltwasser" = .ok kv := by
    cases hq : parse_consumption_section raw "Kaltwasser" with
    | ok kv => exact ⟨kv, rfl⟩
    | error e => rw [hq] at hk; simp [exceptIsOk] at hk
  obtain ⟨wv, hwv⟩ : ∃ wv, parse_consumption_section raw "Warmwasser" = .ok wv := by
    cases hq : parse_consumption_section raw "Warmwasser" with
    | ok wv => exact ⟨wv, rfl⟩
    | error e => rw [hq] at hw; simp [exceptIsOk] at hw
  obtain ⟨hv, hhv⟩ : ∃ hv, parse_consumption_section raw "Heizung" = .ok hv := by
    cases hq : parse_consumption_section raw "Heizung" with
    | ok hv => exact ⟨hv, rfl⟩
    | error e => rw [hq] at hh; simp [exceptIsOk] at hh
  have hmk : mkParsedMessage (String.mk m) y ⟨y, n, 1⟩ kv wv hv raw
      (generate_content_hash raw) = .error "Year must be between 2000 and 2100" := by
    unfold mkParsedMessage
    rw [if_pos (by omega)]
  simp [parse_message, hmy, Except.bind, requireSome, hlook, hdate, hkv, hwv, hhv, hmk]

/-- Witness for C8 (amended): a full message dated `Dezember 1999` with
three parseable sections fails with the year-range error. -/
theorem year_range_error_after_sections_witness :
    parse_message sampleMessage1999 = .error "Year must be between 2000 and 2100" := by
  refine year_range_error_after_sections _ "Dezember".data 1999 (by decide)
    (by decide) (by decide) (Or.inl (by decide)) (by decide) (by decide) (by decide)

/-- Counterexample to C8 as stated: on `"Dezember 1999"` (year outside the
range, sections absent) the surfaced error is the Kaltwasser section
error, not a year validation error — so the year check does not happen at
step 3 before section parsing. -/
theorem year_range_error_cex :
    exceptIsOk (parse_month_year "Dezember 1999") = true ∧
    parse_message "Dezember 1999" = .error "Could not find Kaltwasser section" ∧
    ("Could not find Kaltwasser section" : String) ≠
      "Year must be between 2000 and 2100" := by
  exact ⟨by decide, by decide, by decide⟩

/-! ### Lemmas: the extraction normalizations preserve the marker
(for C7 and C10)

Each `re.sub` state machine only rewrites runs of its trigger characters;
a substring containing none of them, and whose head does not extend a
pending run, survives verbatim. -/

/-- `clean1go` distributes over an append whose right part does not start
with `\n` (the only character whose handling depends on the state). -/
theorem clean1go_append : ∀ (y : List Char), y.head? ≠ some '\n' →
    ∀ (a : List Char) (p q : Bool),
    clean1go p (a ++ y) = clean1go p a ++ clean1go q y := by
  intro y hy a
  induction a with
  | nil =>
      intro p q
      simp only [List.nil_append]
      cases y with
      | nil => rfl
      | cons c r =>
          have hc : c ≠ '\n' := fun hcon => hy (by rw [hcon]; rfl)
          by_cases hcr : c = '\r'
          · subst hcr; simp [clean1go]
          · simp [clean1go, hcr, hc]
  | cons c t ih =>
      intro p q
      by_cases hcr : c = '\r'
      · subst hcr
        simp [clean1go, List.append_eq, ih true q]
      · by_cases hnl : c = '\n'
        · subst hnl
          cases p <;> simp [clean1go, hcr, List.append_eq, ih false q]
        · simp [clean1go, hcr, hnl, List.append_eq, ih false q]

/-- Characters that are neither `\r` nor `\n` pass through `clean1go`
verbatim. -/
theorem clean1go_verbatim : ∀ (x y : List Char),
    (∀ c ∈ x, ¬(c = '\r' ∨ c = '\n')) →
    clean1go false (x ++ y) = x ++ clean1go false y := by
  intro x
  induction x with
  | nil => intro y _; simp
  | cons c t ih =>
      intro y hx
      have hc := hx c (List.mem_cons_self _ _)
      push_neg at hc
      simp [clean1go, hc.1, hc.2, List.append_eq,
        ih y (fun d hd => hx d (List.mem_cons_of_mem _ hd))]

/-- `clean2go` distributes over an append whose right part does not start
with a space or tab. -/
theorem clean2go_append : ∀ (y : List Char),
    (∀ c, y.head? = some c → ¬(c = ' ' ∨ c = '\t')) →
    ∀ (a : List Char) (p q : Bool),
    clean2go p (a ++ y) = clean2go p a ++ clean2go q y := by
  intro y hy a
  induction a with
  | nil =>
      intro p q
      simp only [List.nil_append]
      cases y with
      | nil => rfl
      | cons c r =>
          have hc := hy c rfl
          simp [clean2go, hc]
  | cons c t ih =>
      intro p q
      by_cases hst : c = ' ' ∨ c = '\t'
      · cases p <;> simp [clean2go, hst, List.append_eq, ih true q]
      · simp [clean2go, hst, List.append_eq, ih false q]

/-- Characters that are neither space nor tab pass through `clean2go`
verbatim. -/
theorem clean2go_verbatim : ∀ (x y : List Char),
    (∀ c ∈ x, ¬(c = ' ' ∨ c = '\t')) →
    clean2go false (x ++ y) = x ++ clean2go false y := by
  intro x
  induction x with
  | nil => intro y _; simp
  | cons c t ih =>
      intro y hx
      have hc := hx c (List.mem_cons_self _ _)
      simp [clean2go, hc, List.append_eq,
        ih y (fun d hd => hx d (List.mem_cons_of_mem _ hd))]

/-- `clean3go` distributes over an append whose right part does not start
with `\n`. -/
theorem clean3go_append : ∀ (y : List Char), y.head? ≠ some '\n' →
    ∀ (a : List Char) (k k' : Nat),
    clean3go k (a ++ y) = clean3go k a ++ clean3go k' y := by
  intro y hy a
  induction a with
  | nil =>
      intro k k'
      simp only [List.nil_append]
      cases y with
      | nil => rfl
      | cons c r =>
          have hc : c ≠ '\n' := fun hcon => hy (by rw [hcon]; rfl)
          simp [clean3go, hc]
  | cons c t ih =>
      intro k k'
      by_cases hnl : c = '\n'
      · subst hnl
        by_cases h2 : 2 ≤ k <;> simp [clean3go, h2, List.append_eq, ih (k + 1) k']
      · simp [clean3go, hnl, List.append_eq, ih 0 k']

/-- Characters other than `\n` pass through `clean3go` (from a reset
state) verbatim. -/
theorem clean3go_verbatim : ∀ (x y : List Char), (∀ c ∈ x, c ≠ '\n') →
    clean3go 0 (x ++ y) = x ++ clean3go 0 y := by
  intro x
  induction x with
  | nil => intro y _; simp
  | cons c t ih =>
      intro y hx
      have hc := hx c (List.mem_cons_self _ _)
      simp [clean3go, hc, List.append_eq,
        ih y (fun d hd => hx d (List.mem_cons_of_mem _ hd))]

/-- The marker survives the full normalization pipeline. -/
theorem marker_infix_cleanAll (l : List Char) (h : MARKER <:+: l) :
    MARKER <:+: cleanAll l := by
  obtain ⟨s, t, hst⟩ := h
  have hhd1 : (MARKER ++ t).head? = some 'V' := rfl
  have e1 : clean1go false (s ++ (MARKER ++ t)) =
      clean1go false s ++ (MARKER ++ clean1go false t) := by
    rw [clean1go_append (MARKER ++ t) (by rw [hhd1]; decide) s false false,
      clean1go_verbatim MARKER t (by decide)]
  have hhd2 : (MARKER ++ clean1go false t).head? = some 'V' := rfl
  have e2 : clean2go false (clean1go false s ++ (MARKER ++ clean1go false t)) =
      clean2go false (clean1go false s) ++
        (MARKER ++ clean2go false (clean1go false t)) := by
    rw [clean2go_append (MARKER ++ clean1go false t)
        (by intro c hc; rw [hhd2] at hc; cases hc; decide)
        (clean1go false s) false false,
      clean2go_verbatim MARKER (clean1go false t) (by decide)]
  have hhd3 : (MARKER ++ clean2go false (clean1go false t)).head? = some 'V' := rfl
  have e3 : clean3go 0 (clean2go false (clean1go false s) ++
        (MARKER ++ clean2go false (clean1go false t))) =
      clean3go 0 (clean2go false (clean1go false s)) ++
        (MARKER ++ clean3go 0 (clean2go false (clean1go false t))) := by
    rw [clean3go_append (MARKER ++ clean2go false (clean1go false t))
        (by rw [hhd3]; decide)
        (clean2go false (clean1go false s)) 0 0,
      clean3go_verbatim MARKER (clean2go false (clean1go false t)) (by decide)]
  refine ⟨clean3go 0 (clean2go false (clean1go false s)),
    clean3go 0 (clean2go false (clean1go false t)), ?_⟩
  have hassoc : s ++ MARKER ++ t = s ++ (MARKER ++ t) := List.append_assoc ..
  unfold cleanAll
  rw [← hst, hassoc, e1, e2, e3, List.append_assoc]

/-- The pattern matches at the start of its own occurrence. -/
theorem ciStarts_self_append (p t : List Char) : ciStarts p (p ++ t) = true := by
  unfold ciStarts
  rw [List.take_left]
  simp

/-- Whenever the marker occurs, the primary pattern produces a match. -/
theorem primaryMatch_of_infix : ∀ (l : List Char), MARKER <:+: l →
    ∃ g, primaryMatch l = some g := by
  intro l
  induction l with
  | nil =>
      intro h
      have := h.length_le
      simp [MARKER] at this
  | cons c rest ih =>
      intro h
      by_cases hci : ciStarts MARKER (c :: rest)
      · exact ⟨_, by unfold primaryMatch; rw [if_pos hci]⟩
      · rcases List.infix_cons_iff.mp h with hpre | hinf
        · exfalso
          apply hci
          obtain ⟨t, ht⟩ := hpre
          rw [← ht]
          exact ciStarts_self_append MARKER t
        · obtain ⟨g, hg⟩ := ih hinf
          exact ⟨g, by unfold primaryMatch; rw [if_neg hci]; exact hg⟩

/-- Structure of a primary match: it is taken at a case-insensitive
marker occurrence. -/
theorem primaryMatch_some : ∀ (l g : List Char), primaryMatch l = some g →
    ∃ l', ciStarts MARKER l' = true ∧
      g = l'.take MARKER.length ++ lazyBody (l'.drop MARKER.length) := by
  intro l
  induction l with
  | nil => intro g h; simp [primaryMatch] at h
  | cons c rest ih =>
      intro g h
      unfold primaryMatch at h
      by_cases hci : ciStarts MARKER (c :: rest)
      · rw [if_pos hci] at h
        cases h
        exact ⟨c :: rest, hci, rfl⟩
      · rw [if_neg hci] at h
        exact ih g h

/-- The matched text starts with a character lowering to `v`. -/
theorem take_head_of_ciStarts (l' : List Char) (hci : ciStarts MARKER l' = true) :
    ∃ c t15, l'.take MARKER.length = c :: t15 ∧ pyLowerChar c = 'v' := by
  have hlow : lowerL (l'.take MARKER.length) = lowerL MARKER := of_decide_eq_true hci
  cases hl : l'.take MARKER.length with
  | nil => rw [hl] at hlow; exact absurd hlow (by decide)
  | cons c t15 =>
      rw [hl] at hlow
      refine ⟨c, t15, rfl, ?_⟩
      have hM : (lowerL MARKER).head? = some 'v' := by decide
      have hmap := congrArg List.head? hlow
      rw [hM] at hmap
      simpa [lowerL] using hmap

/-- A character lowering to `v` is not whitespace. -/
theorem not_ws_of_lower_v (c : Char) (h : pyLowerChar c = 'v') :
    isPyWS c = false := by
  cases hb : isPyWS c
  · rfl
  · exfalso
    simp only [isPyWS, Bool.or_eq_true, beq_iff_eq] at hb
    rcases hb with (((((rfl | rfl) | rfl) | rfl) | rfl) | rfl) <;>
      exact absurd h (by decide)

/-- Stripping a list with a non-whitespace head is non-empty. -/
theorem pyStrip_ne_nil_of_head (c : Char) (t : List Char) (hc : isPyWS c = false) :
    pyStrip (c :: t) ≠ [] := by
  unfold pyStrip
  rw [List.dropWhile_cons_of_neg (by simp [hc])]
  intro hcontra
  rw [List.reverse_eq_nil_iff, List.dropWhile_eq_nil_iff] at hcontra
  have := hcontra c (by simp)
  rw [hc] at this
  exact Bool.false_ne_true this

/-- Whenever the marker occurs in the raw text, the extractor's output
comes from the primary pattern and is non-empty after stripping. -/
theorem extract_core_marker (text : List Char) (h : MARKER <:+: text) :
    ∃ g, primaryMatch (cleanAll text) = some g ∧
      extract_consumption_core text = some (pyStrip g) ∧ pyStrip g ≠ [] := by
  obtain ⟨g, hg⟩ := primaryMatch_of_infix _ (marker_infix_cleanAll text h)
  obtain ⟨l', hci, rfl⟩ := primaryMatch_some _ _ hg
  obtain ⟨c, t15, hl, hv⟩ := take_head_of_ciStarts l' hci
  have hne : pyStrip (l'.take MARKER.length ++ lazyBody (l'.drop MARKER.length)) ≠ [] := by
    rw [hl, List.cons_append]
    exact pyStrip_ne_nil_of_head c _ (not_ws_of_lower_v c hv)
  refine ⟨_, hg, ?_, hne⟩
  simp only [extract_consumption_core]
  rw [if_neg (not_not_intro h), hg]

/-- A produced extract is never the empty text. -/
theorem extract_core_some_ne_nil (text m : List Char)
    (h : extract_consumption_core text = some m) : m ≠ [] := by
  by_cases hinf : MARKER <:+: text
  · obtain ⟨g, -, hsome, hne⟩ := extract_core_marker text hinf
    rw [hsome] at h
    cases h
    exact hne
  · rw [extract_consumption_core, if_pos hinf] at h
    cases h

/-- Claim C7: the extractor returns absent exactly when the case-sensitive
marker `Verbrauchswerte` does not occur in the text; when it does occur, a
non-empty substring is returned. -/
theorem extract_absent_iff_no_marker (text : String) :
    (extract_consumption_from_text text = none ↔ ¬ (MARKER <:+: text.data)) ∧
    ((MARKER <:+: text.data) →
      ∃ s, extract_consumption_from_text text = some s ∧ s ≠ "") := by
  have hpos : (MARKER <:+: text.data) →
      ∃ s, extract_consumption_from_text text = some s ∧ s ≠ "" := by
    intro hinf
    obtain ⟨g, -, hsome, hne⟩ := extract_core_marker text.data hinf
    refine ⟨String.mk (pyStrip g), ?_, ?_⟩
    · rw [extract_consumption_from_text, hsome]
      rfl
    · intro hempty
      apply hne
      have hd : (String.mk (pyStrip g)).data = ("" : String).data := by rw [hempty]
      simpa using hd
  refine ⟨⟨?_, ?_⟩, hpos⟩
  · intro hnone hinf
    obtain ⟨s, hs, -⟩ := hpos hinf
    rw [hs] at hnone
    cases hnone
  · intro hninf
    rw [extract_consumption_from_text, extract_consumption_core, if_pos hninf]
    rfl

/-- Witness for C7 at a concrete input containing the marker. -/
theorem extract_absent_iff_no_marker_witness :
    (MARKER <:+: ("Hallo Verbrauchswerte Dezember" : String).data) ∧
    ∃ s, extract_consumption_from_text "Hallo Verbrauchswerte Dezember" = some s ∧
      s ≠ "" := by
  refine ⟨by decide, ?_⟩
  exact (extract_absent_iff_no_marker "Hallo Verbrauchswerte Dezember").2 (by decide)

/-- Claim C10: every produced extract comes from the primary
closer-anchored pattern (whose end-of-text alternative makes it total on
marker-containing inputs); the fixed-length fallback window never
produces the output. -/
theorem fallback_window_unreachable (text : String) :
    (extract_consumption_from_text text = none ∨
      ∃ g, primaryMatch (cleanAll text.data) = some g ∧
        extract_consumption_from_text text = some (String.mk (pyStrip g))) ∧
    ((MARKER <:+: text.data) → primaryMatch (cleanAll text.data) ≠ none) := by
  constructor
  · by_cases hinf : MARKER <:+: text.data
    · obtain ⟨g, hg, hsome, -⟩ := extract_core_marker text.data hinf
      refine Or.inr ⟨g, hg, ?_⟩
      rw [extract_consumption_from_text, hsome]
      rfl
    · left
      rw [extract_consumption_from_text, extract_consumption_core, if_pos hinf]
      rfl
  · intro hinf
    obtain ⟨g, hg, -, -⟩ := extract_core_marker text.data hinf
    rw [hg]
    exact fun hcon => Option.noConfusion hcon

/-- Witness for C10 at a concrete input containing the marker. -/
theorem fallback_window_unreachable_witness :
    (MARKER <:+: ("xx Verbrauchswerte yy" : String).data) ∧
    primaryMatch (cleanAll ("xx Verbrauchswerte yy" : String).data) ≠ none := by
  refine ⟨by decide, ?_⟩
  exact (fallback_window_unreachable "xx Verbrauchswerte yy").2 (by decide)

/-! ### Lemmas: candidate scoring and first-max selection (for C6) -/

/-- `find?` only depends on the predicate's values on the list. -/
theorem find_congr_on_mem {α : Type} (p q : α → Bool) :
    ∀ (l : List α), (∀ x ∈ l, p x = q x) → l.find? p = l.find? q := by
  intro l
  induction l with
  | nil => intro _; rfl
  | cons x xs ih =>
      intro h
      have hx := h x (List.mem_cons_self _ _)
      rw [List.find?_cons, List.find?_cons, hx]
      cases q x
      · exact ih (fun y hy => h y (List.mem_cons_of_mem _ hy))
      · rfl

/-- `isMaxOf` in propositional form. -/
theorem isMaxOf_iff (l : List (List Char)) (x : List Char) :
    isMaxOf l x = true ↔
      ∀ y ∈ l, score_message_candidate y ≤ score_message_candidate x := by
  simp [isMaxOf]

/-- The selection loop seeded with a current best computes the running
maximum (strictly-greater replacement keeps the earlier on ties). -/
theorem goMsgs_bestAcc : ∀ (l : List (List Char)) (b : List Char),
    goMsgs l (some b) (score_message_candidate b : Int) = some (bestAcc b l) := by
  intro l
  induction l with
  | nil => intro b; simp [goMsgs, bestAcc]
  | cons n t ih =>
      intro b
      simp only [goMsgs, bestAcc, List.foldl_cons]
      by_cases hgt : score_message_candidate b < score_message_candidate n
      · rw [if_pos (by exact_mod_cast hgt), if_pos hgt]
        exact ih n
      · rw [if_neg (by exact_mod_cast hgt), if_neg hgt]
        exact ih b

/-- `isMaxOf` over a cons cell. -/
theorem isMaxOf_cons_true_iff (a : List Char) (l : List (List Char)) (x : List Char) :
    isMaxOf (a :: l) x = true ↔
      (score_message_candidate a ≤ score_message_candidate x ∧ isMaxOf l x = true) := by
  simp [isMaxOf]

/-- A score bound transfers maximality upward. -/
theorem isMaxOf_mono (l : List (List Char)) (x y : List Char)
    (hxy : score_message_candidate x ≤ score_message_candidate y)
    (h : isMaxOf l x = true) : isMaxOf l y = true := by
  rw [isMaxOf_iff] at h ⊢
  intro z hz
  exact le_trans (h z hz) hxy

/-- `find?` with the "is a maximum" predicate returns exactly the running
maximum of the loop: the first element of maximal score. -/
theorem find_max_bestAcc : ∀ (t : List (List Char)) (m : List Char),
    (m :: t).find? (isMaxOf (m :: t)) = some (bestAcc m t) := by
  intro t
  induction t with
  | nil =>
      intro m
      rw [List.find?_cons_of_pos _
        ((isMaxOf_cons_true_iff m [] m).mpr ⟨le_refl _, by simp [isMaxOf]⟩)]
      simp [bestAcc]
  | cons n t ih =>
      intro m
      by_cases hnm : score_message_candidate m < score_message_candidate n
      · have hPm : ¬ (isMaxOf (m :: n :: t) m = true) := by
          intro h
          rw [isMaxOf_cons_true_iff, isMaxOf_cons_true_iff] at h
          omega
        rw [List.find?_cons_of_neg _ hPm]
        have hcongr : ∀ x ∈ n :: t, isMaxOf (m :: n :: t) x = isMaxOf (n :: t) x := by
          intro x _
          rw [Bool.eq_iff_iff, isMaxOf_cons_true_iff, isMaxOf_cons_true_iff]
          constructor
          · rintro ⟨-, h2, h3⟩
            exact ⟨h2, h3⟩
          · rintro ⟨h2, h3⟩
            exact ⟨le_trans (le_of_lt hnm) h2, h2, h3⟩
        rw [find_congr_on_mem _ _ _ hcongr, ih n]
        have hb : bestAcc m (n :: t) = bestAcc n t := by
          simp [bestAcc, List.foldl_cons, if_pos hnm]
        rw [hb]
      · have hle : score_message_candidate n ≤ score_message_candidate m := by omega
        have hb : bestAcc m (n :: t) = bestAcc m t := by
          simp [bestAcc, List.foldl_cons, if_neg hnm]
        rw [hb]
        by_cases hPm : isMaxOf (m :: n :: t) m = true
        · rw [List.find?_cons_of_pos _ hPm]
          have hPm' : isMaxOf (m :: t) m = true := by
            rw [isMaxOf_cons_true_iff, isMaxOf_cons_true_iff] at hPm
            exact (isMaxOf_cons_true_iff m t m).mpr ⟨hPm.1, hPm.2.2⟩
          have hIH := ih m
          rw [List.find?_cons_of_pos _ hPm'] at hIH
          exact hIH
        · have hPn : ¬ (isMaxOf (m :: n :: t) n = true) := by
            intro hPn
            apply hPm
            rw [isMaxOf_cons_true_iff, isMaxOf_cons_true_iff] at hPn ⊢
            exact ⟨le_refl _, hle, isMaxOf_mono t n m hle hPn.2.2⟩
          rw [List.find?_cons_of_neg _ hPm, List.find?_cons_of_neg _ hPn]
          have hQm : ¬ (isMaxOf (m :: t) m = true) := by
            intro hQ
            apply hPm
            rw [isMaxOf_cons_true_iff] at hQ
            rw [isMaxOf_cons_true_iff, isMaxOf_cons_true_iff]
            exact ⟨le_refl _, hle, hQ.2⟩
          have hIH := ih m
          rw [List.find?_cons_of_neg _ hQm] at hIH
          have hcongr : ∀ x ∈ t, isMaxOf (m :: n :: t) x = isMaxOf (m :: t) x := by
            intro x _
            rw [Bool.eq_iff_iff, isMaxOf_cons_true_iff, isMaxOf_cons_true_iff,
              isMaxOf_cons_true_iff]
            constructor
            · rintro ⟨h1, -, h3⟩
              exact ⟨h1, h3⟩
            · rintro ⟨h1, h3⟩
              exact ⟨h1, le_trans hle h1, h3⟩
          rw [find_congr_on_mem _ _ _ hcongr]
          exact hIH

/-- The HTML selection loop equals the loop over the extracted messages
(the empty-text skip never fires: extracts are non-empty). -/
theorem find_best_eq_goMsgs : ∀ (cands : List (List Char))
    (best : Option (List Char)) (bs : Int),
    find_best_candidate_go cands best bs =
      goMsgs (cands.filterMap extract_consumption_core) best bs := by
  intro cands
  induction cands with
  | nil => intro best bs; rfl
  | cons c rest ih =>
      intro best bs
      unfold find_best_candidate_go
      cases hx : extract_consumption_core c with
      | none =>
          rw [List.filterMap_cons_none hx]
          simp only [hx]
          exact ih best bs
      | some m =>
          rw [List.filterMap_cons_some hx]
          simp only [hx]
          rw [if_neg (extract_core_some_ne_nil c m hx)]
          unfold goMsgs
          by_cases hlt : bs < (score_message_candidate m : Int)
          · rw [if_pos hlt, if_pos hlt, ih]
          · rw [if_neg hlt, if_neg hlt, ih]

/-- Claim C6: the HTML-candidate score is the character length plus 500
per utility keyword occurring case-insensitively, and the selection loop
returns the first extracted candidate of maximal score (strictly higher
score wins; exact ties go to the candidate seen first). -/
theorem score_formula_and_first_max (cands : List (List Char)) :
    (∀ m, score_message_candidate m =
      m.length + 500 * (KEYWORDS.filter (fun kw => ciContains m kw)).length) ∧
    find_best_candidate cands =
      (cands.filterMap extract_consumption_core).find?
        (isMaxOf (cands.filterMap extract_consumption_core)) := by
  constructor
  · intro m
    simp only [score_message_candidate, KEYWORDS]
    by_cases h1 : ciContains m "Kaltwasser".data <;>
      by_cases h2 : ciContains m "Warmwasser".data <;>
        by_cases h3 : ciContains m "Heizung".data <;>
          simp [h1, h2, h3, List.filter]
  · rw [find_best_candidate, find_best_eq_goMsgs]
    cases hext : cands.filterMap extract_consumption_core with
    | nil => rfl
    | cons m rest =>
        unfold goMsgs
        rw [if_pos (lt_of_lt_of_le (by norm_num) (Int.natCast_nonneg _))]
        rw [goMsgs_bestAcc rest m, find_max_bestAcc rest m]

/-! ### Lemmas: deduplication, ordering and the limit (for C5 and C9) -/

/-- Lexicographic `<` is asymmetric. -/
theorem pyStrLt_asymm : ∀ (a b : List Char), pyStrLt a b = true →
    pyStrLt b a = false := by
  intro a
  induction a with
  | nil =>
      intro b h
      cases b with
      | nil => simp [pyStrLt] at h
      | cons c r => rfl
  | cons x as ih =>
      intro b h
      cases b with
      | nil => simp [pyStrLt] at h
      | cons y bs =>
          simp only [pyStrLt] at h ⊢
          rcases Nat.lt_trichotomy x.toNat y.toNat with h1 | h1 | h1
          · rw [if_neg (by omega), if_pos h1]
          · rw [if_neg (by omega), if_neg (by omega)] at h ⊢
            exact ih bs h
          · rw [if_neg (by omega), if_pos h1] at h
            cases h

/-- Lexicographic `<` is connected over any middle list. -/
theorem pyStrLt_connect : ∀ (a c b : List Char), pyStrLt a c = true →
    pyStrLt a b = true ∨ pyStrLt b c = true := by
  intro a
  induction a with
  | nil =>
      intro c b h
      cases c with
      | nil => simp [pyStrLt] at h
      | cons z cs =>
          cases b with
          | nil => exact Or.inr rfl
          | cons y bs => exact Or.inl rfl
  | cons x as ih =>
      intro c b h
      cases c with
      | nil => simp [pyStrLt] at h
      | cons z cs =>
          cases b with
          | nil => exact Or.inr rfl
          | cons y bs =>
              simp only [pyStrLt] at h ⊢
              rcases Nat.lt_trichotomy x.toNat y.toNat with h1 | h1 | h1
              · left; rw [if_pos h1]
              · rcases Nat.lt_trichotomy x.toNat z.toNat with h2 | h2 | h2
                · right; rw [if_pos (by omega)]
                · rw [if_neg (by omega), if_neg (by omega)] at h
                  rcases ih cs bs h with hl | hr
                  · left; rw [if_neg (by omega), if_neg (by omega)]; exact hl
                  · right; rw [if_neg (by omega), if_neg (by omega)]; exact hr
                · rw [if_neg (by omega), if_pos h2] at h
                  cases h
              · rcases Nat.lt_trichotomy y.toNat z.toNat with h2 | h2 | h2
                · right; rw [if_pos h2]
                · rw [if_neg (by omega), if_pos (by omega)] at h
                  cases h
                · rw [if_neg (by omega), if_pos (by omega)] at h
                  cases h

/-- The sort comparison is total. -/
theorem tsGE_total : ∀ (a b : String × String), tsGE a b ∨ tsGE b a := by
  intro a b
  unfold tsGE
  cases h : pyStrLt a.1.data b.1.data
  · exact Or.inl rfl
  · exact Or.inr (pyStrLt_asymm _ _ h)

/-- The sort comparison is transitive. -/
theorem tsGE_trans : ∀ (a b c : String × String), tsGE a b → tsGE b c → tsGE a c := by
  intro a b c hab hbc
  unfold tsGE at *
  cases h : pyStrLt a.1.data c.1.data
  · rfl
  · rcases pyStrLt_connect _ _ b.1.data h with h1 | h1
    · rw [hab] at h1; cases h1
    · rw [hbc] at h1; cases h1

/-- Without a limit, the loop is plain first-occurrence deduplication. -/
theorem dedupGo_none : ∀ (l : List (String × String)) (seen : List String) (r : Nat),
    dedupGo none seen r l = dedupKeepFirst seen l := by
  intro l
  induction l with
  | nil => intro seen r; rfl
  | cons p rest ih =>
      intro seen r
      obtain ⟨ts, msg⟩ := p
      simp only [dedupGo, dedupKeepFirst]
      by_cases hseen : pyNormalizeWS msg ∈ seen
      · rw [if_pos hseen, if_pos hseen]
        exact ih seen r
      · rw [if_neg hseen, if_neg hseen]
        simp only [hitLimit, Bool.false_eq_true, if_false]
        rw [ih (pyNormalizeWS msg :: seen) (r + 1)]

/-- With a limit, the break-after-append loop keeps exactly
`max (limit - retained) 1` further messages of the full deduplication. -/
theorem dedupGo_some : ∀ (l : List (String × String)) (seen : List String)
    (r : Nat) (k : Int),
    dedupGo (some k) seen r l =
      (dedupKeepFirst seen l).take
        (if k - (r : Int) ≤ 0 then 1 else (k - (r : Int)).toNat) := by
  intro l
  induction l with
  | nil => intro seen r k; simp [dedupGo, dedupKeepFirst]
  | cons p rest ih =>
      intro seen r k
      obtain ⟨ts, msg⟩ := p
      simp only [dedupGo, dedupKeepFirst]
      by_cases hseen : pyNormalizeWS msg ∈ seen
      · rw [if_pos hseen, if_pos hseen]
        exact ih seen r k
      · rw [if_neg hseen, if_neg hseen]
        by_cases hk : k ≤ (r : Int) + 1
        · have h1 : hitLimit (some k) (r + 1) = true := by
            simp only [hitLimit, decide_eq_true_eq]
            push_cast
            omega
          have hR : (if k - (r : Int) ≤ 0 then 1 else (k - (r : Int)).toNat) = 1 := by
            split_ifs <;> omega
          rw [h1, hR]
          simp
        · have h1 : hitLimit (some k) (r + 1) = false := by
            simp only [hitLimit]
            rw [decide_eq_false]
            push_cast
            omega
          have hR : (if k - (r : Int) ≤ 0 then 1 else (k - (r : Int)).toNat) =
              (k - ((r : Int) + 1)).toNat + 1 := by
            split_ifs <;> omega
          rw [h1, hR]
          simp only [Bool.false_eq_true, if_false, List.take_succ_cons]
          rw [ih (pyNormalizeWS msg :: seen) (r + 1) k]
          have hR2 : (if k - ((r + 1 : Nat) : Int) ≤ 0 then 1
              else (k - ((r + 1 : Nat) : Int)).toNat) = (k - ((r : Int) + 1)).toNat := by
            push_cast
            split_ifs <;> omega
          rw [hR2]

/-- Claim C5 (amended): the deduplicate-and-limit result is the
timestamp-descending stable sort of the candidates, deduplicated by
normalized text keeping the first (newest) occurrence, truncated to
`limit` entries for a positive limit — a limit `≤ 0` still yields the
first retained message, because the length check runs after the first
append.  On an empty candidate list the result is empty, and the
operation is total (it never raises). -/
theorem dedup_result_spec (cands : List (String × String)) (limit : Option Int) :
    (cands = [] → (deduplicate_and_limit cands limit).2 = []) ∧
    (deduplicate_and_limit cands limit).2 =
      applyLimitAmended limit (dedupKeepFirst [] (pySortDesc cands)) ∧
    List.Sorted tsGE (pySortDesc cands) ∧
    (pySortDesc cands).Perm cands := by
  haveI : IsTotal (String × String) tsGE := ⟨tsGE_total⟩
  haveI : IsTrans (String × String) tsGE := ⟨fun a b c => tsGE_trans a b c⟩
  refine ⟨?_, ?_, List.sorted_insertionSort tsGE cands, List.perm_insertionSort tsGE cands⟩
  · intro h
    rw [deduplicate_and_limit, if_pos h]
  · by_cases h : cands = []
    · subst h
      rw [deduplicate_and_limit, if_pos rfl]
      cases limit <;>
        simp [applyLimitAmended, pySortDesc, List.insertionSort, dedupKeepFirst]
    · cases limit with
      | none =>
          rw [deduplicate_and_limit, if_neg h]
          exact dedupGo_none (pySortDesc cands) [] 0
      | some k =>
          rw [deduplicate_and_limit, if_neg h]
          show dedupGo (some k) [] 0 (pySortDesc cands) = _
          rw [dedupGo_some (pySortDesc cands) [] 0 k]
          simp only [applyLimitAmended]
          congr 1
          push_cast
          split_ifs <;> omega

/-- Witness for C5 (amended) on the empty list. -/
theorem dedup_result_spec_witness :
    (([] : List (String × String)) = []) ∧
    (deduplicate_and_limit ([] : List (String × String)) none).2 = [] :=
  ⟨rfl, (dedup_result_spec [] none).1 rfl⟩

/-- Counterexample to C5 as stated: with `limit = 0` the result is not
truncated to at most 0 entries — the first message is still returned. -/
theorem dedup_limit_cex :
    ¬ ((deduplicate_and_limit [("2024-01-01T00:00:00Z", "a")] (some 0)).2.length ≤ 0) := by
  decide

/-- Claim C9 (amended): `_deduplicate_and_limit` sorts the caller's
candidate list in place — after the call the list holds the same pairs
(a permutation of the original), reordered descending by timestamp —
rather than being left unchanged. -/
theorem dedup_sorts_in_place (cands : List (String × String)) (limit : Option Int) :
    (deduplicate_and_limit cands limit).1 = pySortDesc cands ∧
    (pySortDesc cands).Perm cands ∧
    List.Sorted tsGE (pySortDesc cands) := by
  haveI : IsTotal (String × String) tsGE := ⟨tsGE_total⟩
  haveI : IsTrans (String × String) tsGE := ⟨fun a b c => tsGE_trans a b c⟩
  refine ⟨?_, List.perm_insertionSort tsGE cands, List.sorted_insertionSort tsGE cands⟩
  by_cases h : cands = []
  · subst h
    rw [deduplicate_and_limit, if_pos rfl]
    rfl
  · rw [deduplicate_and_limit, if_neg h]

/-- Counterexample to C9 as stated: the caller's list does not hold the
same pairs in the same order after the call — it has been sorted. -/
theorem dedup_mutation_cex :
    (deduplicate_and_limit [("a", "x"), ("b", "y")] none).1 ≠
      [("a", "x"), ("b", "y")] := by
  decide
